import Mathlib

/-!
Shallow embedding of the tracing core of the BifRust repository.

Machine floats (`ftr`, the tracing float type) are modelled as exact
rationals `ℚ`; the claims under study concern the algebraic structure of
the computations, not rounding.  Definitions mirror the Rust source files
(`src/geometry.rs`, `src/tracing/stepping/rkf/rkf23.rs`,
`src/tracing/field_line.rs`, `src/cli.rs`, `src/cli/tracing/stepping/rkf.rs`).
Repository code that is referenced but not present under `src/` (the grid's
`wrap_point`, the swarm reduction of `field_line/basic.rs`) is modelled from
the specification and marked as such in its doc comment.
-/

/-- A 3D vector (`Vec3` in `src/geometry.rs`), components in the tracing
float type modelled as `ℚ`. -/
structure Vec3 where
  x : ℚ
  y : ℚ
  z : ℚ
deriving DecidableEq, Repr

/-- A 3D spatial coordinate (`Point3` in `src/geometry.rs`). -/
structure Point3 where
  x : ℚ
  y : ℚ
  z : ℚ
deriving DecidableEq, Repr

/-- `Vec3::zero`. -/
def Vec3.zero : Vec3 := ⟨0, 0, 0⟩

/-- `Point3::origin`. -/
def Point3.origin : Point3 := ⟨0, 0, 0⟩

/-- `Vec3::to_point3`. -/
def Vec3.to_point3 (v : Vec3) : Point3 := ⟨v.x, v.y, v.z⟩

/-- `Point3::to_vec3`. -/
def Point3.to_vec3 (p : Point3) : Vec3 := ⟨p.x, p.y, p.z⟩

/-- Componentwise addition of vectors (`impl Add for Vec3`). -/
def Vec3.add (a b : Vec3) : Vec3 := ⟨a.x + b.x, a.y + b.y, a.z + b.z⟩

/-- Scalar multiplication (`impl Mul<F> for Vec3`: each component is
`factor * component`). -/
def Vec3.smul (a : Vec3) (factor : ℚ) : Vec3 :=
  ⟨factor * a.x, factor * a.y, factor * a.z⟩

/-- Point plus vector (`impl Add<Vec3> for Point3`). -/
def Point3.addVec (p : Point3) (v : Vec3) : Point3 :=
  ⟨p.x + v.x, p.y + v.y, p.z + v.z⟩

/-- `Vec3::squared_length`. -/
def Vec3.squared_length (v : Vec3) : ℚ := v.x * v.x + v.y * v.y + v.z * v.z

/-- `Vec3::dot`. -/
def Vec3.dot (a b : Vec3) : ℚ := a.x * b.x + a.y * b.y + a.z * b.z

/-- The list of the three components in x, y, z order (iteration order of
the underlying `In3D` array, used when flattening vector values). -/
def Vec3.toList (v : Vec3) : List ℚ := [v.x, v.y, v.z]

/-- `Vec3::normalize` from `src/geometry.rs`.  The Rust code computes
`length = sqrt(squared_length)`, asserts `length != 0` (a panic when the
assertion fails, modelled as `none`) and multiplies each component by
`length.recip()`.  Since the square root of a rational is not rational,
the computed length is passed as an explicit argument `len`; theorems
constrain it by `0 ≤ len` and `len * len = squared_length`, which
characterises the real square root exactly. -/
def Vec3.normalize (v : Vec3) (len : ℚ) : Option Vec3 :=
  if len = 0 then none
  else some ⟨v.x * len⁻¹, v.y * len⁻¹, v.z * len⁻¹⟩

/-- Termination causes of the stepper (spec section on termination kinds;
the concrete enum lives outside `src/`). -/
inductive StoppingCause where
  | outOfBounds
  | tooManyAttempts
  | sink
  | stoppedByCallback
  | maxDistanceReached
deriving DecidableEq, Repr

/-- `StepperResult` with `Ok` and `Stopped` variants. -/
inductive StepperResult (α : Type) where
  | ok (val : α)
  | stopped (cause : StoppingCause)
deriving DecidableEq, Repr

/-- `ComputedDirection3`: a normalized direction sample, possibly together
with the wrapped position at which it was taken. -/
inductive ComputedDirection3 where
  | standard (direction : Vec3)
  | withWrappedPosition (position : Point3) (direction : Vec3)
deriving DecidableEq, Repr

/-- `StepAttempt3`: the outcome of one RKF step attempt. -/
structure StepAttempt3 where
  step_displacement : Vec3
  next_position : Point3
  next_direction : Vec3
  intermediate_directions : List Vec3
  step_wrapped : Bool
deriving DecidableEq, Repr

/-- The kinematic fields of `RKFStepperState3` (the struct is declared in
`rkf/mod.rs`, outside `src/`; the fields and their roles are fixed by the
initialisation in `RKF23Stepper3::new`).  The `config` and `pi_control`
fields are omitted: no embedded function below reads them. -/
structure RKFStepperState3 where
  position : Point3
  direction : Vec3
  distance : ℚ
  step_size : ℚ
  error : ℚ
  n_sudden_reversals : Nat
  previous_step_size : ℚ
  previous_position : Point3
  previous_direction : Vec3
  intermediate_directions : List Vec3
  previous_step_displacement : Vec3
  previous_step_wrapped : Bool
  next_output_distance : ℚ
deriving DecidableEq, Repr

/-- Butcher tableau constant `A21` of `RKF23Stepper3`. -/
def RKF23.A21 : ℚ := 1/2
/-- Butcher tableau constant `A32` of `RKF23Stepper3`. -/
def RKF23.A32 : ℚ := 3/4
/-- Butcher tableau constant `A41` of `RKF23Stepper3`. -/
def RKF23.A41 : ℚ := 2/9
/-- Butcher tableau constant `A42` of `RKF23Stepper3`. -/
def RKF23.A42 : ℚ := 1/3
/-- Butcher tableau constant `A43` of `RKF23Stepper3`. -/
def RKF23.A43 : ℚ := 4/9

/-- Error coefficient `E1` of `RKF23Stepper3`. -/
def RKF23.E1 : ℚ := -5/72
/-- Error coefficient `E2` of `RKF23Stepper3`. -/
def RKF23.E2 : ℚ := 1/12
/-- Error coefficient `E3` of `RKF23Stepper3`. -/
def RKF23.E3 : ℚ := 1/9
/-- Error coefficient `E4` of `RKF23Stepper3`. -/
def RKF23.E4 : ℚ := -1/8

/-- The direction component of a `ComputedDirection3` (both match arms of
the Rust code extract the direction, discarding a wrapped position). -/
def ComputedDirection3.direction : ComputedDirection3 → Vec3
  | .standard d => d
  | .withWrappedPosition _ d => d

/-- `RKF23Stepper3::attempt_step` from `src/tracing/stepping/rkf/rkf23.rs`.
The helper `Self::compute_direction` (defined in `rkf/mod.rs`, outside
`src/`) samples the vector field through the interpolator and normalizes;
it is abstracted as the function argument `computeDirection`.  Only the
state fields `position`, `direction` and `step_size` are read. -/
def RKF23.attempt_step (computeDirection : Point3 → StepperResult ComputedDirection3)
    (state : RKFStepperState3) : StepperResult StepAttempt3 :=
  match computeDirection
      (state.position.addVec (state.direction.smul (RKF23.A21 * state.step_size))) with
  | .stopped cause => .stopped cause
  | .ok cd1 =>
    let intermediate_direction_1 := cd1.direction
    match computeDirection
        (state.position.addVec (intermediate_direction_1.smul (RKF23.A32 * state.step_size))) with
    | .stopped cause => .stopped cause
    | .ok cd2 =>
      let intermediate_direction_2 := cd2.direction
      let step_displacement :=
        (((state.direction.smul RKF23.A41).add
          (intermediate_direction_1.smul RKF23.A42)).add
          (intermediate_direction_2.smul RKF23.A43)).smul state.step_size
      let next_position := state.position.addVec step_displacement
      match computeDirection next_position with
      | .stopped cause => .stopped cause
      | .ok (.standard direction) =>
        .ok { step_displacement := step_displacement
              next_position := next_position
              next_direction := direction
              intermediate_directions := [intermediate_direction_1, intermediate_direction_2]
              step_wrapped := false }
      | .ok (.withWrappedPosition wrapped_position direction) =>
        .ok { step_displacement := step_displacement
              next_position := wrapped_position
              next_direction := direction
              intermediate_directions := [intermediate_direction_1, intermediate_direction_2]
              step_wrapped := true }

/-- `RKF23Stepper3::compute_error_deltas`.  The Rust code indexes
`attempt.intermediate_directions[0]` and `[1]`, which panics (`none`) when
fewer than two intermediate directions are present. -/
def RKF23.compute_error_deltas (state : RKFStepperState3) (attempt : StepAttempt3) :
    Option Vec3 :=
  match attempt.intermediate_directions with
  | k1 :: k2 :: _ =>
    some (((((state.direction.smul RKF23.E1).add
             (k1.smul RKF23.E2)).add
            (k2.smul RKF23.E3)).add
           (attempt.next_direction.smul RKF23.E4)).smul state.step_size)
  | _ => none

/-- `RKF23Stepper3::compute_dense_interpolation_coefs`. -/
def RKF23.compute_dense_interpolation_coefs (state : RKFStepperState3) : List Vec3 :=
  [state.previous_position.to_vec3,
   state.previous_step_displacement,
   state.previous_direction.smul state.previous_step_size,
   state.direction.smul state.previous_step_size]

/-- Rational "mod" used for periodic wrapping: reduces `a` into `[0, w)`
for `w > 0`. -/
def qmod (a w : ℚ) : ℚ := a - w * (⌊a / w⌋ : ℤ)

/-- Modelled from the spec: the grid data visible to the tracing core
(`Grid3` lives in `src/grid.rs`, which is not under `src/`): lower and
upper bounds of the extent and a per-axis periodicity flag. -/
structure Grid3 where
  lower_bounds : Point3
  upper_bounds : Point3
  is_periodic_x : Bool
  is_periodic_y : Bool
  is_periodic_z : Bool
deriving DecidableEq, Repr

/-- Modelled from the spec: per-axis wrapping — a periodic coordinate is
reduced into `[lo, hi)`; a non-periodic coordinate is passed through. -/
def wrapCoord (periodic : Bool) (lo hi p : ℚ) : ℚ :=
  if periodic then lo + qmod (p - lo) (hi - lo) else p

/-- Modelled from the spec: `wrap_point(p) -> Option<Point>` returns `None`
if `p` lies outside a non-periodic boundary and otherwise returns `p` with
each periodic coordinate reduced into range (spec on the grid operations). -/
def Grid3.wrap_point (g : Grid3) (p : Point3) : Option Point3 :=
  if (g.is_periodic_x = false ∧ (p.x < g.lower_bounds.x ∨ g.upper_bounds.x < p.x)) ∨
     (g.is_periodic_y = false ∧ (p.y < g.lower_bounds.y ∨ g.upper_bounds.y < p.y)) ∨
     (g.is_periodic_z = false ∧ (p.z < g.lower_bounds.z ∨ g.upper_bounds.z < p.z)) then
    none
  else
    some ⟨wrapCoord g.is_periodic_x g.lower_bounds.x g.upper_bounds.x p.x,
          wrapCoord g.is_periodic_y g.lower_bounds.y g.upper_bounds.y p.y,
          wrapCoord g.is_periodic_z g.lower_bounds.z g.upper_bounds.z p.z⟩

/-- `RKF23Stepper3::interpolate_dense_position`.  Evaluates the cubic
expression of the Rust source on the coefficient slice (Rust indexes
`coefs[0] ..= coefs[3]`, a panic, modelled as `none`, when the slice is
shorter) and, when `previous_step_wrapped` is set, re-wraps the result with
`grid.wrap_point(..).unwrap()` — the `unwrap` panic is modelled as `none`. -/
def RKF23.interpolate_dense_position (grid : Grid3) (state : RKFStepperState3)
    (coefs : List Vec3) (fraction : ℚ) : Option Point3 :=
  match coefs with
  | c0 :: c1 :: c2 :: c3 :: _ =>
    let fraction_minus_one := fraction - 1
    let position :=
      ((c0.to_point3).addVec (c1.smul fraction)).addVec
        ((((c1.smul (-(fraction + fraction_minus_one))).add
            (c2.smul fraction_minus_one)).add
           (c3.smul fraction)).smul (fraction * fraction_minus_one))
    if state.previous_step_wrapped then
      grid.wrap_point position
    else
      some position
  | _ => none

/-- The stepper type selected by the `stepping-scheme` CLI argument
(`RKFStepperType` in `rkf/mod.rs`; its two variants are named in
`src/cli/tracing/stepping/rkf.rs`). -/
inductive RKFStepperType where
  | RKF23
  | RKF45
deriving DecidableEq, Repr

/-- The `possible_values` the clap parser accepts for the `stepping-scheme`
argument (`add_rkf_stepper_options_to_subcommand` in
`src/cli/tracing/stepping/rkf.rs`); its `default_value` is "rkf45". -/
def stepping_scheme_possible_values : List String := ["rkf23", "rkf45"]

/-- `get_value_from_required_constrained_argument` from `src/cli.rs`:
zips the possible value strings with the possible values, returns the first
value whose string equals the argument string, and panics ("Invalid ...",
modelled as `none`) when no string matches. -/
def get_value_from_required_constrained_argument {α : Type}
    (value_str : String) (possible_value_strs : List String)
    (possible_values : List α) : Option α :=
  ((possible_value_strs.zip possible_values).find? (fun pr => pr.1 = value_str)).map
    Prod.snd

/-- The stepper-type selection performed by
`construct_rkf_stepper_config_from_options` in
`src/cli/tracing/stepping/rkf.rs`: the parsed `stepping-scheme` string is
looked up against the strings `["peaked", "isotropic"]` paired with
`[RKF23, RKF45]`. -/
def construct_rkf_stepper_type (value_str : String) : Option RKFStepperType :=
  get_value_from_required_constrained_argument value_str
    ["peaked", "isotropic"] [RKFStepperType.RKF23, RKFStepperType.RKF45]

/-- The four property maps of `FieldLineSetProperties3`
(`src/tracing/field_line.rs`).  The Rust maps are `HashMap`s whose
iteration order is arbitrary; they are modelled as association lists whose
list order stands for that iteration order. -/
structure FieldLineSetProperties3 where
  number_of_field_lines : Nat
  fixed_scalar_values : List (String × List ℚ)
  fixed_vector_values : List (String × List Vec3)
  varying_scalar_values : List (String × List (List ℚ))
  varying_vector_values : List (String × List (List Vec3))
deriving DecidableEq, Repr

/-- Little-endian byte encoding of a `u64` (modelled from the spec:
`utils::write_into_byte_buffer` with `Endianness::Little` lives in
`src/io/utils.rs`, which is not under `src/`). -/
def u64le (n : Nat) : List Nat :=
  [n % 256, n / 256 % 256, n / 256 ^ 2 % 256, n / 256 ^ 3 % 256,
   n / 256 ^ 4 % 256, n / 256 ^ 5 % 256, n / 256 ^ 6 % 256, n / 256 ^ 7 % 256]

/-- One chunk of writer output: each `write_all` / `write!` call of
`write_field_line_data_as_custom_binary` appends one chunk. -/
inductive OutChunk where
  | bytes (bs : List Nat)
  | text (s : String)
deriving DecidableEq, Repr

/-- The `scan` computing `start_indices_of_field_line_elements` in
`write_field_line_data_as_custom_binary`: a running count starts at 0 and
each trajectory yields the count before its own length is added. -/
def start_indices_of_field_line_elements {α : Type} (trajectories : List (List α)) :
    List Nat :=
  (trajectories.foldl
    (fun (acc : List Nat × Nat) vec => (acc.1 ++ [acc.2], acc.2 + vec.length))
    ([], 0)).1

/-- The loop of `set_fixed_scalar_variables`: push each name and extend the
flat values with that entry's values, in map iteration order. -/
def set_fixed_scalar_variables (m : List (String × List ℚ)) :
    List String × List ℚ :=
  m.foldl (fun acc p => (acc.1 ++ [p.1], acc.2 ++ p.2)) ([], [])

/-- The loop of `set_fixed_vector_variables`: each `Vec3` is flattened to
its three components. -/
def set_fixed_vector_variables (m : List (String × List Vec3)) :
    List String × List ℚ :=
  m.foldl
    (fun acc p =>
      (acc.1 ++ [p.1], p.2.foldl (fun flat v => flat ++ v.toList) acc.2))
    ([], [])

/-- The loop of `set_varying_scalar_variables`: each trajectory's series is
appended in order. -/
def set_varying_scalar_variables (m : List (String × List (List ℚ))) :
    List String × List ℚ :=
  m.foldl
    (fun acc p =>
      (acc.1 ++ [p.1], p.2.foldl (fun flat vec => flat ++ vec) acc.2))
    ([], [])

/-- The loop of `set_varying_vector_variables`: each trajectory's series of
vectors is flattened componentwise. -/
def set_varying_vector_variables (m : List (String × List (List Vec3))) :
    List String × List ℚ :=
  m.foldl
    (fun acc p =>
      (acc.1 ++ [p.1],
       p.2.foldl (fun flat vec => vec.foldl (fun fl v => fl ++ v.toList) flat) acc.2))
    ([], [])

/-- The `if`/`else` of `write_field_line_data_as_custom_binary` computing
`(number_of_field_line_elements, start_indices_of_field_line_elements)`:
the first varying-scalar entry is used when present, else the first
varying-vector entry, else both are empty. -/
def field_line_elements_info (properties : FieldLineSetProperties3) :
    Nat × List Nat :=
  if properties.varying_scalar_values.isEmpty then
    if properties.varying_vector_values.isEmpty then (0, [])
    else
      match properties.varying_vector_values with
      | [] => (0, [])
      | (_, varying_vectors) :: _ =>
        ((varying_vectors.map List.length).sum,
         start_indices_of_field_line_elements varying_vectors)
  else
    match properties.varying_scalar_values with
    | [] => (0, [])
    | (_, varying_scalars) :: _ =>
      ((varying_scalars.map List.length).sum,
       start_indices_of_field_line_elements varying_scalars)

/-- Mirror of Rust's `[String]::join(sep)` with separator `"\n"`
(as called on the collected quantity names). -/
def joinNames : List String → String
  | [] => ""
  | [n] => n
  | n :: rest => n ++ "\x0a" ++ joinNames rest

/-- `write_field_line_data_as_custom_binary` from
`src/tracing/field_line.rs`, as the sequence of chunks written.  The float
encoder `encFloat` and the float byte size `floatSize`
(`mem::size_of::<ftr>()`) are parameters, since the byte layout of the
float type is fixed outside `src/`.  Control flow (the `if`/`else`
selecting the source of the element counts, and the conditional section
writes) mirrors the source. -/
def write_field_line_data_as_custom_binary (encFloat : ℚ → List Nat)
    (floatSize : Nat) (lower_bounds upper_bounds : Vec3)
    (properties : FieldLineSetProperties3) : List OutChunk :=
  let number_of_fixed_scalar_quantities := properties.fixed_scalar_values.length
  let number_of_fixed_vector_quantities := properties.fixed_vector_values.length
  let number_of_varying_scalar_quantities := properties.varying_scalar_values.length
  let number_of_varying_vector_quantities := properties.varying_vector_values.length
  let number_of_field_line_elements := (field_line_elements_info properties).1
  let start_indices := (field_line_elements_info properties).2
  let fs := set_fixed_scalar_variables properties.fixed_scalar_values
  let fv := set_fixed_vector_variables properties.fixed_vector_values
  let vs := set_varying_scalar_variables properties.varying_scalar_values
  let vv := set_varying_vector_variables properties.varying_vector_values
  let names := joinNames (fs.1 ++ fv.1 ++ vs.1 ++ vv.1) ++ "\x0a"
  [OutChunk.bytes (u64le floatSize ++
                   u64le properties.number_of_field_lines ++
                   u64le number_of_field_line_elements ++
                   u64le number_of_fixed_scalar_quantities ++
                   u64le number_of_fixed_vector_quantities ++
                   u64le number_of_varying_scalar_quantities ++
                   u64le number_of_varying_vector_quantities),
   OutChunk.bytes (encFloat lower_bounds.x ++ encFloat upper_bounds.x ++
                   encFloat lower_bounds.y ++ encFloat upper_bounds.y ++
                   encFloat lower_bounds.z ++ encFloat upper_bounds.z),
   OutChunk.text names] ++
  (if number_of_field_line_elements > 0 then
    [OutChunk.bytes (start_indices.map u64le).flatten] else []) ++
  (if number_of_fixed_scalar_quantities > 0 then
    [OutChunk.bytes (fs.2.map encFloat).flatten] else []) ++
  (if number_of_fixed_vector_quantities > 0 then
    [OutChunk.bytes (fv.2.map encFloat).flatten] else []) ++
  (if number_of_varying_scalar_quantities > 0 then
    [OutChunk.bytes (vs.2.map encFloat).flatten] else []) ++
  (if number_of_varying_vector_quantities > 0 then
    [OutChunk.bytes (vv.2.map encFloat).flatten] else [])

/-- Lookup in an association list modelling `HashMap` indexing/`get`:
the value of the first binding whose key matches. -/
def alistLookup {α : Type} (m : List (String × α)) (key : String) : Option α :=
  (m.find? (fun p => p.1 = key)).map Prod.snd

/-- Insert modelling `HashMap::insert`: replaces the value of an existing
binding for the key, otherwise adds a new binding. -/
def alistInsert {α : Type} (m : List (String × α)) (key : String) (v : α) :
    List (String × α) :=
  match m with
  | [] => [(key, v)]
  | p :: rest =>
    if p.1 = key then (key, v) :: rest else p :: alistInsert rest key v

/-- Number of bindings an association list holds for a key. -/
def alistCountKey {α : Type} (m : List (String × α)) (key : String) : Nat :=
  (m.filter (fun p => p.1 = key)).length

/-- `FieldLineSet3::extract_fixed_scalars` from `src/tracing/field_line.rs`:
reads the `"x0"`, `"y0"`, `"z0"` entries of `fixed_scalar_values` (a panic,
modelled as `none`, when one is missing), interpolates the given scalar
field at each initial position (`expect_inside`, a panic when the
interpolator reports `Outside`, modelled by the interpolator returning
`none`), and inserts the resulting values under the key `field.name() + "0"`.
The Rust `zip`s truncate to the shortest of the three coordinate lists, as
does `zipWith3` here; the numeric cast is the identity in this model. -/
def extract_fixed_scalars (properties : FieldLineSetProperties3)
    (fieldName : String) (interp : Point3 → Option ℚ) :
    Option FieldLineSetProperties3 :=
  match alistLookup properties.fixed_scalar_values "x0",
        alistLookup properties.fixed_scalar_values "y0",
        alistLookup properties.fixed_scalar_values "z0" with
  | some initial_coords_x, some initial_coords_y, some initial_coords_z =>
    let positions := List.zipWith3 (fun x y z => Point3.mk x y z)
      initial_coords_x initial_coords_y initial_coords_z
    (positions.mapM interp).map (fun values =>
      { properties with
          fixed_scalar_values :=
            alistInsert properties.fixed_scalar_values (fieldName ++ "0") values })
  | _, _, _ => none

/-- Modelled from the spec: the per-trajectory `TraceData` produced by a
tracer (the concrete `FieldLineData3` lives in
`src/tracing/field_line/basic.rs`, which is not under `src/`).  A
trajectory is a sequence of points together with named scalar and vector
series; all series of one trajectory have the trajectory's length. -/
structure FieldLineData3 where
  path : List Point3
  extra_fixed_scalar : List (String × ℚ)
  extra_fixed_vector : List (String × Vec3)
  extra_varying_scalar : List (String × List ℚ)
  extra_varying_vector : List (String × List Vec3)
deriving DecidableEq, Repr

/-- Modelled from the spec: keys occurring in any trajectory's named
series, without duplicates (merging "merges map keys"). -/
def mergedKeys {α : Type} (entries : List (List (String × α))) : List String :=
  (entries.flatMap (fun l => l.map Prod.fst)).dedup

/-- Modelled from the spec: the parallel swarm reduction
(`FromParallelIterator for FieldLineSetProperties3`, in
`src/tracing/field_line/basic.rs`, not under `src/`).  Per the spec, the
result holds the series `x`, `y`, `z` (the path coordinates) among the
varying scalar values and `x0`, `y0`, `z0` (the start coordinates) among
the fixed scalar values; named series are concatenated over trajectories
in order, and a key absent from some trajectory is padded with a default
of matching inner length. -/
def reduceFieldLineData (datas : List FieldLineData3) : FieldLineSetProperties3 :=
  { number_of_field_lines := datas.length
    fixed_scalar_values :=
      ("x0", datas.map (fun d => (d.path.headD Point3.origin).x)) ::
      ("y0", datas.map (fun d => (d.path.headD Point3.origin).y)) ::
      ("z0", datas.map (fun d => (d.path.headD Point3.origin).z)) ::
      (mergedKeys (datas.map (·.extra_fixed_scalar))).map (fun key =>
        (key, datas.map (fun d => (alistLookup d.extra_fixed_scalar key).getD 0)))
    fixed_vector_values :=
      (mergedKeys (datas.map (·.extra_fixed_vector))).map (fun key =>
        (key, datas.map (fun d => (alistLookup d.extra_fixed_vector key).getD Vec3.zero)))
    varying_scalar_values :=
      ("x", datas.map (fun d => d.path.map (·.x))) ::
      ("y", datas.map (fun d => d.path.map (·.y))) ::
      ("z", datas.map (fun d => d.path.map (·.z))) ::
      (mergedKeys (datas.map (·.extra_varying_scalar))).map (fun key =>
        (key, datas.map (fun d =>
          (alistLookup d.extra_varying_scalar key).getD (List.replicate d.path.length 0))))
    varying_vector_values :=
      (mergedKeys (datas.map (·.extra_varying_vector))).map (fun key =>
        (key, datas.map (fun d =>
          (alistLookup d.extra_varying_vector key).getD
            (List.replicate d.path.length Vec3.zero)))) }

/-- `FieldLineSet3::trace` from `src/tracing/field_line.rs`: the seeder's
start positions are fed through the tracer with `filter_map` (a `None`
trace is dropped) and the surviving trace data are collected into the
columnar `FieldLineSetProperties3` by the reduction. -/
def FieldLineSet3.trace (seeds : List Point3)
    (tracer : Point3 → Option FieldLineData3) : FieldLineSetProperties3 :=
  reduceFieldLineData (seeds.filterMap tracer)

/-- Well-formedness of one trajectory's data: every named varying series
has the trajectory's length (spec: "All series in a trajectory have equal
length after each accepted step"), and every fixed series is a single
value, so nothing to require there. -/
def FieldLineData3.wf (d : FieldLineData3) : Prop :=
  (∀ p ∈ d.extra_varying_scalar, p.2.length = d.path.length) ∧
  (∀ p ∈ d.extra_varying_vector, p.2.length = d.path.length)

/-- Modelled from the spec's step-attempt formula: the advance displacement
`Δ = h·((2/9)·d + (1/3)·k1 + (4/9)·k2)` of the Bogacki–Shampine pair. -/
def specStepDisplacement (d k1 k2 : Vec3) (h : ℚ) : Vec3 :=
  ((d.smul (2/9)).add ((k1.smul (1/3)).add (k2.smul (4/9)))).smul h

/-- Modelled from the spec's dense-output formula, applied to the retained
state: `P(θ) = x₀ + θ·Δ + θ(θ−1)·[−(2θ−1)·Δ + (θ−1)·h·d₀ + θ·h·d₁]` with
`x₀` the previous position, `Δ` the previous accepted displacement, `h` the
previous step size and `d₀`, `d₁` the previous and current directions. -/
def hermiteSpecPosition (state : RKFStepperState3) (θ : ℚ) : Point3 :=
  let Δ := state.previous_step_displacement
  let hd0 := state.previous_direction.smul state.previous_step_size
  let hd1 := state.direction.smul state.previous_step_size
  (state.previous_position.addVec (Δ.smul θ)).addVec
    (((Δ.smul (-(2*θ - 1))).add ((hd0.smul (θ - 1)).add (hd1.smul θ))).smul (θ*(θ - 1)))

/-- C1: the `stepping-scheme` values accepted by the CLI parser are
`"rkf23"` and `"rkf45"` (default `"rkf45"`), yet
`construct_rkf_stepper_config_from_options` looks the parsed value up
against the placeholder strings `["peaked", "isotropic"]`, so the lookup
finds no match and the program panics (`none`) for both accepted values —
the claimed stepper type is never returned. -/
theorem construct_rkf_stepper_type_panics_on_accepted_values :
    stepping_scheme_possible_values = ["rkf23", "rkf45"] ∧
    construct_rkf_stepper_type "rkf23" = none ∧
    construct_rkf_stepper_type "rkf45" = none := by
  refine ⟨rfl, ?_, ?_⟩ <;> decide

/-- C4: `compute_error_deltas` of the RKF23 stepper returns
`h·((−5/72)·d + (1/12)·k1 + (1/9)·k2 + (−1/8)·d')` built from exactly the
current direction, the two intermediate directions and the next direction;
the four error coefficients sum to zero, so the deltas vanish whenever the
four directions coincide. -/
theorem rkf23_compute_error_deltas_spec (state : RKFStepperState3)
    (Δ k1 k2 dnext : Vec3) (np : Point3) (sw : Bool) :
    RKF23.compute_error_deltas state
        { step_displacement := Δ, next_position := np, next_direction := dnext,
          intermediate_directions := [k1, k2], step_wrapped := sw } =
      some ((((state.direction.smul (-5/72)).add (k1.smul (1/12))).add
             ((k2.smul (1/9)).add (dnext.smul (-1/8)))).smul state.step_size) ∧
    RKF23.E1 + RKF23.E2 + RKF23.E3 + RKF23.E4 = 0 ∧
    RKF23.compute_error_deltas state
        { step_displacement := Δ, next_position := np,
          next_direction := state.direction,
          intermediate_directions := [state.direction, state.direction],
          step_wrapped := sw } =
      some Vec3.zero := by
  refine ⟨?_, by norm_num [RKF23.E1, RKF23.E2, RKF23.E3, RKF23.E4], ?_⟩
  · simp only [RKF23.compute_error_deltas, RKF23.E1, RKF23.E2, RKF23.E3, RKF23.E4,
      Vec3.smul, Vec3.add, Option.some.injEq, Vec3.mk.injEq]
    refine ⟨by ring, by ring, by ring⟩
  · simp only [RKF23.compute_error_deltas, RKF23.E1, RKF23.E2, RKF23.E3, RKF23.E4,
      Vec3.smul, Vec3.add, Vec3.zero, Option.some.injEq, Vec3.mk.injEq]
    refine ⟨by ring, by ring, by ring⟩

/-- C3: on the coefficient vectors produced by
`compute_dense_interpolation_coefs` (previous position, previous
displacement, `h·d₀`, `h·d₁`), `interpolate_dense_position` evaluates, for
every fraction `θ ∈ (0, 1]` (and with no wrap pending from the previous
step), exactly the cubic Hermite interpolant `P(θ)` given in the spec. -/
theorem rkf23_dense_output_is_spec_hermite (grid : Grid3)
    (state : RKFStepperState3) (θ : ℚ) (_h0 : 0 < θ) (_h1 : θ ≤ 1)
    (hw : state.previous_step_wrapped = false) :
    RKF23.interpolate_dense_position grid state
        (RKF23.compute_dense_interpolation_coefs state) θ =
      some (hermiteSpecPosition state θ) := by
  simp only [RKF23.interpolate_dense_position, RKF23.compute_dense_interpolation_coefs,
    hw, Bool.false_eq_true, if_false, hermiteSpecPosition, Option.some.injEq,
    Vec3.smul, Vec3.add, Vec3.to_point3, Point3.to_vec3, Point3.addVec, Point3.mk.injEq]
  refine ⟨by ring, by ring, by ring⟩

/-- Witness for C3 at a concrete state and fraction. -/
theorem rkf23_dense_output_is_spec_hermite_witness :
    RKF23.interpolate_dense_position
        ⟨⟨0, 0, 0⟩, ⟨1, 1, 1⟩, true, true, false⟩
        ⟨⟨1, 0, 0⟩, ⟨0, 1, 0⟩, 2, 1, 0, 0, 1, ⟨0, 0, 0⟩, ⟨1, 0, 0⟩, [], ⟨1, 0, 0⟩, false, 0⟩
        (RKF23.compute_dense_interpolation_coefs
          ⟨⟨1, 0, 0⟩, ⟨0, 1, 0⟩, 2, 1, 0, 0, 1, ⟨0, 0, 0⟩, ⟨1, 0, 0⟩, [], ⟨1, 0, 0⟩, false, 0⟩)
        (1/2) =
      some (hermiteSpecPosition
        ⟨⟨1, 0, 0⟩, ⟨0, 1, 0⟩, 2, 1, 0, 0, 1, ⟨0, 0, 0⟩, ⟨1, 0, 0⟩, [], ⟨1, 0, 0⟩, false, 0⟩
        (1/2)) :=
  rkf23_dense_output_is_spec_hermite _ _ _ (by norm_num) (by norm_num) rfl

/-- The displacement expression computed inside `attempt_step` equals the
spec's `h·((2/9)·d + (1/3)·k1 + (4/9)·k2)`. -/
theorem code_step_displacement_eq (d k1 k2 : Vec3) (h : ℚ) :
    (((d.smul RKF23.A41).add (k1.smul RKF23.A42)).add (k2.smul RKF23.A43)).smul h =
      specStepDisplacement d k1 k2 h := by
  simp only [RKF23.A41, RKF23.A42, RKF23.A43, specStepDisplacement,
    Vec3.smul, Vec3.add, Vec3.mk.injEq]
  refine ⟨by ring, by ring, by ring⟩

/-- C2: a step attempt of the RKF23 stepper samples the direction at the
Bogacki–Shampine nodes `x + (h/2)·d` and `x + (3h/4)·k1`; when all samples
are inside, the returned displacement is `h·((2/9)·d + (1/3)·k1 + (4/9)·k2)`
and the next position is `x` plus that displacement — replaced by the
wrapped position, with `step_wrapped` set, when the final sample required
wrapping; a sample reporting `Stopped` at any stage aborts the attempt with
that cause. -/
theorem rkf23_attempt_step_spec
    (f : Point3 → StepperResult ComputedDirection3) (state : RKFStepperState3) :
    (∀ k1 k2 dnext,
      f (state.position.addVec (state.direction.smul (1/2 * state.step_size))) =
          .ok (.standard k1) →
      f (state.position.addVec (k1.smul (3/4 * state.step_size))) =
          .ok (.standard k2) →
      f (state.position.addVec
          (specStepDisplacement state.direction k1 k2 state.step_size)) =
          .ok (.standard dnext) →
      RKF23.attempt_step f state =
        .ok { step_displacement :=
                specStepDisplacement state.direction k1 k2 state.step_size,
              next_position :=
                state.position.addVec
                  (specStepDisplacement state.direction k1 k2 state.step_size),
              next_direction := dnext,
              intermediate_directions := [k1, k2],
              step_wrapped := false }) ∧
    (∀ k1 k2 wrapped dnext,
      f (state.position.addVec (state.direction.smul (1/2 * state.step_size))) =
          .ok (.standard k1) →
      f (state.position.addVec (k1.smul (3/4 * state.step_size))) =
          .ok (.standard k2) →
      f (state.position.addVec
          (specStepDisplacement state.direction k1 k2 state.step_size)) =
          .ok (.withWrappedPosition wrapped dnext) →
      RKF23.attempt_step f state =
        .ok { step_displacement :=
                specStepDisplacement state.direction k1 k2 state.step_size,
              next_position := wrapped,
              next_direction := dnext,
              intermediate_directions := [k1, k2],
              step_wrapped := true }) ∧
    (∀ cause,
      f (state.position.addVec (state.direction.smul (1/2 * state.step_size))) =
          .stopped cause →
      RKF23.attempt_step f state = .stopped cause) ∧
    (∀ k1 cause,
      f (state.position.addVec (state.direction.smul (1/2 * state.step_size))) =
          .ok (.standard k1) →
      f (state.position.addVec (k1.smul (3/4 * state.step_size))) =
          .stopped cause →
      RKF23.attempt_step f state = .stopped cause) ∧
    (∀ k1 k2 cause,
      f (state.position.addVec (state.direction.smul (1/2 * state.step_size))) =
          .ok (.standard k1) →
      f (state.position.addVec (k1.smul (3/4 * state.step_size))) =
          .ok (.standard k2) →
      f (state.position.addVec
          (specStepDisplacement state.direction k1 k2 state.step_size)) =
          .stopped cause →
      RKF23.attempt_step f state = .stopped cause) := by
  have hA21 : RKF23.A21 * state.step_size = 1/2 * state.step_size := by
    norm_num [RKF23.A21]
  have hA32 : RKF23.A32 * state.step_size = 3/4 * state.step_size := by
    norm_num [RKF23.A32]
  refine ⟨?_, ?_, ?_, ?_, ?_⟩
  · intro k1 k2 dnext h1 h2 h3
    simp only [RKF23.attempt_step, hA21, hA32, h1, ComputedDirection3.direction,
      code_step_displacement_eq, h2, h3]
  · intro k1 k2 wrapped dnext h1 h2 h3
    simp only [RKF23.attempt_step, hA21, hA32, h1, ComputedDirection3.direction,
      code_step_displacement_eq, h2, h3]
  · intro cause h1
    simp only [RKF23.attempt_step, hA21, h1]
  · intro k1 cause h1 h2
    simp only [RKF23.attempt_step, hA21, hA32, h1, ComputedDirection3.direction, h2]
  · intro k1 k2 cause h1 h2 h3
    simp only [RKF23.attempt_step, hA21, hA32, h1, ComputedDirection3.direction,
      code_step_displacement_eq, h2, h3]

/-- Witness for C2: a uniform sampler (all samples inside) and a concrete
state. -/
theorem rkf23_attempt_step_spec_witness :
    RKF23.attempt_step
        (fun _ => .ok (.standard ⟨1, 0, 0⟩))
        ⟨⟨0, 0, 0⟩, ⟨1, 0, 0⟩, 0, 1, 0, 0, 0, ⟨0, 0, 0⟩, ⟨0, 0, 0⟩, [], ⟨0, 0, 0⟩, false, 0⟩ =
      .ok { step_displacement :=
              specStepDisplacement ⟨1, 0, 0⟩ ⟨1, 0, 0⟩ ⟨1, 0, 0⟩ 1,
            next_position :=
              Point3.addVec ⟨0, 0, 0⟩ (specStepDisplacement ⟨1, 0, 0⟩ ⟨1, 0, 0⟩ ⟨1, 0, 0⟩ 1),
            next_direction := ⟨1, 0, 0⟩,
            intermediate_directions := [⟨1, 0, 0⟩, ⟨1, 0, 0⟩],
            step_wrapped := false } :=
  (rkf23_attempt_step_spec _ _).1 ⟨1, 0, 0⟩ ⟨1, 0, 0⟩ ⟨1, 0, 0⟩ rfl rfl rfl

/-- C5 (amended): a dense-output evaluation returns the Hermite position
unchanged when `previous_step_wrapped` is false, and re-wraps it with
`grid.wrap_point` when `previous_step_wrapped` is true; the re-wrap yields
a position exactly when `wrap_point` succeeds — when the Hermite position
lies outside a non-periodic boundary, `wrap_point` returns `None` and the
`unwrap` in `interpolate_dense_position` panics. -/
theorem rkf23_dense_output_wrap_behavior (grid : Grid3)
    (state : RKFStepperState3) (θ : ℚ) :
    (state.previous_step_wrapped = false →
      RKF23.interpolate_dense_position grid state
          (RKF23.compute_dense_interpolation_coefs state) θ =
        some (hermiteSpecPosition state θ)) ∧
    (state.previous_step_wrapped = true →
      RKF23.interpolate_dense_position grid state
          (RKF23.compute_dense_interpolation_coefs state) θ =
        grid.wrap_point (hermiteSpecPosition state θ)) := by
  constructor
  · intro hw
    simp only [RKF23.interpolate_dense_position, RKF23.compute_dense_interpolation_coefs,
      hw, Bool.false_eq_true, if_false, hermiteSpecPosition, Option.some.injEq,
      Vec3.smul, Vec3.add, Vec3.to_point3, Point3.to_vec3, Point3.addVec, Point3.mk.injEq]
    refine ⟨by ring, by ring, by ring⟩
  · intro hw
    simp only [RKF23.interpolate_dense_position, RKF23.compute_dense_interpolation_coefs,
      hw, if_true]
    congr 1
    simp only [hermiteSpecPosition, Vec3.smul, Vec3.add, Vec3.to_point3,
      Point3.to_vec3, Point3.addVec, Point3.mk.injEq]
    refine ⟨by ring, by ring, by ring⟩

/-- Witness for C5 (amended), in the wrapped branch at a concrete state. -/
theorem rkf23_dense_output_wrap_behavior_witness :
    RKF23.interpolate_dense_position
        ⟨⟨0, 0, 0⟩, ⟨1, 1, 1⟩, true, true, true⟩
        ⟨⟨1, 0, 0⟩, ⟨0, 1, 0⟩, 2, 1, 0, 0, 1, ⟨0, 0, 0⟩, ⟨1, 0, 0⟩, [], ⟨1, 0, 0⟩, true, 0⟩
        (RKF23.compute_dense_interpolation_coefs
          ⟨⟨1, 0, 0⟩, ⟨0, 1, 0⟩, 2, 1, 0, 0, 1, ⟨0, 0, 0⟩, ⟨1, 0, 0⟩, [], ⟨1, 0, 0⟩, true, 0⟩)
        (1/2) =
      Grid3.wrap_point ⟨⟨0, 0, 0⟩, ⟨1, 1, 1⟩, true, true, true⟩
        (hermiteSpecPosition
          ⟨⟨1, 0, 0⟩, ⟨0, 1, 0⟩, 2, 1, 0, 0, 1, ⟨0, 0, 0⟩, ⟨1, 0, 0⟩, [], ⟨1, 0, 0⟩, true, 0⟩
          (1/2)) :=
  (rkf23_dense_output_wrap_behavior _ _ _).2 rfl

/-- Counterexample to C5 as stated: after a wrapped step on a grid that is
periodic in x and y but not in z, the Hermite interpolant overshoots the
non-periodic z boundary at fraction 1/4 (z-coordinate 641/640 > 1), so
`grid.wrap_point` returns `None` and the `unwrap` panics (`none`) — the
re-wrapping does not always succeed. -/
theorem rkf23_dense_output_wrap_counterexample :
    RKF23.interpolate_dense_position
        ⟨⟨0, 0, 0⟩, ⟨1, 1, 1⟩, true, true, false⟩
        ⟨⟨11/20, 1/2, 19/20⟩, ⟨0, 0, 1⟩, 0, 0, 0, 0, 1, ⟨1/2, 1/2, 9/10⟩, ⟨0, 0, 1⟩, [],
         ⟨0, 0, 1/20⟩, true, 0⟩
        (RKF23.compute_dense_interpolation_coefs
          ⟨⟨11/20, 1/2, 19/20⟩, ⟨0, 0, 1⟩, 0, 0, 0, 0, 1, ⟨1/2, 1/2, 9/10⟩, ⟨0, 0, 1⟩, [],
           ⟨0, 0, 1/20⟩, true, 0⟩)
        (1/4) = none := by
  norm_num [RKF23.interpolate_dense_position, RKF23.compute_dense_interpolation_coefs,
    Grid3.wrap_point, Point3.addVec, Vec3.smul, Vec3.add, Vec3.to_point3, Point3.to_vec3]

/-- C9: with `len` the (real) length of `v` — pinned by `0 ≤ len` and
`len·len = squared_length` — `Vec3::normalize` panics (`none`) exactly when
the length is zero, equivalently exactly when `v` is the zero vector, and
otherwise replaces each component by itself times the reciprocal of the
length. -/
theorem vec3_normalize_spec (v : Vec3) (len : ℚ) (hnn : 0 ≤ len)
    (hsq : len * len = v.squared_length) :
    (Vec3.normalize v len = none ↔ len = 0) ∧
    (Vec3.normalize v len = none ↔ v = Vec3.zero) ∧
    (v ≠ Vec3.zero →
      Vec3.normalize v len = some ⟨v.x * len⁻¹, v.y * len⁻¹, v.z * len⁻¹⟩) := by
  have hsq' : len * len = v.x * v.x + v.y * v.y + v.z * v.z := by
    simpa [Vec3.squared_length] using hsq
  have hlz : len = 0 ↔ v = Vec3.zero := by
    constructor
    · intro h
      have hxx := mul_self_nonneg v.x
      have hyy := mul_self_nonneg v.y
      have hzz := mul_self_nonneg v.z
      have hx : v.x = 0 := by nlinarith
      have hy : v.y = 0 := by nlinarith
      have hz : v.z = 0 := by nlinarith
      obtain ⟨a, b, c⟩ := v
      simp only [Vec3.zero, Vec3.mk.injEq]
      exact ⟨hx, hy, hz⟩
    · intro h
      rw [h] at hsq'
      simp only [Vec3.zero] at hsq'
      have : len * len = 0 := by simpa using hsq'
      exact mul_self_eq_zero.mp this
  refine ⟨?_, ?_, ?_⟩
  · by_cases h : len = 0 <;> simp [Vec3.normalize, h]
  · rw [← hlz]
    by_cases h : len = 0 <;> simp [Vec3.normalize, h]
  · intro hne
    have h0 : ¬ len = 0 := fun h => hne (hlz.mp h)
    simp [Vec3.normalize, h0]

/-- Witness for C9 on the vector (3, 0, 4) of length 5. -/
theorem vec3_normalize_spec_witness :
    Vec3.normalize ⟨3, 0, 4⟩ 5 =
      some ⟨3 * (5 : ℚ)⁻¹, 0 * (5 : ℚ)⁻¹, 4 * (5 : ℚ)⁻¹⟩ :=
  (vec3_normalize_spec ⟨3, 0, 4⟩ 5 (by norm_num)
    (by norm_num [Vec3.squared_length])).2.2 (by norm_num [Vec3.zero])

/-- Folding "append the image of each element" equals appending the
flattened image of the list. -/
theorem foldl_append_flatten {α β : Type} (g : α → List β) (l : List α)
    (init : List β) :
    l.foldl (fun acc x => acc ++ g x) init = init ++ (l.map g).flatten := by
  induction l generalizing init with
  | nil => simp
  | cons x rest ih => simp [ih, List.append_assoc]

/-- The fixed-scalar collection loop produces the map keys in order and the
concatenation of the value lists in the same order. -/
theorem set_fixed_scalar_variables_eq (m : List (String × List ℚ)) :
    set_fixed_scalar_variables m =
      (m.map Prod.fst, (m.map Prod.snd).flatten) := by
  suffices h : ∀ a b, m.foldl (fun acc p => (acc.1 ++ [p.1], acc.2 ++ p.2)) (a, b) =
      (a ++ m.map Prod.fst, b ++ (m.map Prod.snd).flatten) by
    simpa [set_fixed_scalar_variables] using h [] []
  induction m with
  | nil => intro a b; simp
  | cons p rest ih =>
    intro a b
    simp only [List.foldl_cons, List.map_cons, List.flatten_cons]
    rw [ih]
    simp [List.append_assoc]

/-- The fixed-vector collection loop produces the map keys in order and the
componentwise flattening of the vector lists in the same order. -/
theorem set_fixed_vector_variables_eq (m : List (String × List Vec3)) :
    set_fixed_vector_variables m =
      (m.map Prod.fst,
       (m.map (fun p => (p.2.map Vec3.toList).flatten)).flatten) := by
  suffices h : ∀ a b, m.foldl
      (fun acc p => (acc.1 ++ [p.1], p.2.foldl (fun flat v => flat ++ v.toList) acc.2))
      (a, b) =
      (a ++ m.map Prod.fst,
       b ++ (m.map (fun p => (p.2.map Vec3.toList).flatten)).flatten) by
    simpa [set_fixed_vector_variables] using h [] []
  induction m with
  | nil => intro a b; simp
  | cons p rest ih =>
    intro a b
    simp only [List.foldl_cons, List.map_cons, List.flatten_cons]
    rw [foldl_append_flatten, ih]
    simp [List.append_assoc]

/-- The varying-scalar collection loop produces the map keys in order and
the concatenation of each entry's flattened trajectory series in order. -/
theorem set_varying_scalar_variables_eq (m : List (String × List (List ℚ))) :
    set_varying_scalar_variables m =
      (m.map Prod.fst, (m.map (fun p => p.2.flatten)).flatten) := by
  suffices h : ∀ a b, m.foldl
      (fun acc p => (acc.1 ++ [p.1], p.2.foldl (fun flat vec => flat ++ vec) acc.2))
      (a, b) =
      (a ++ m.map Prod.fst, b ++ (m.map (fun p => p.2.flatten)).flatten) by
    simpa [set_varying_scalar_variables] using h [] []
  induction m with
  | nil => intro a b; simp
  | cons p rest ih =>
    intro a b
    simp only [List.foldl_cons, List.map_cons, List.flatten_cons]
    have hinner : p.2.foldl (fun flat vec => flat ++ vec) b = b ++ p.2.flatten := by
      have := foldl_append_flatten (fun vec => vec) p.2 b
      simpa using this
    rw [hinner, ih]
    simp [List.append_assoc]

/-- The varying-vector collection loop produces the map keys in order and
the componentwise flattening of each entry's trajectory series in order. -/
theorem set_varying_vector_variables_eq (m : List (String × List (List Vec3))) :
    set_varying_vector_variables m =
      (m.map Prod.fst,
       (m.map (fun p =>
         (p.2.map (fun vec => (vec.map Vec3.toList).flatten)).flatten)).flatten) := by
  suffices h : ∀ a b, m.foldl
      (fun acc p => (acc.1 ++ [p.1],
        p.2.foldl (fun flat vec => vec.foldl (fun fl v => fl ++ v.toList) flat) acc.2))
      (a, b) =
      (a ++ m.map Prod.fst,
       b ++ (m.map (fun p =>
         (p.2.map (fun vec => (vec.map Vec3.toList).flatten)).flatten)).flatten) by
    simpa [set_varying_vector_variables] using h [] []
  induction m with
  | nil => intro a b; simp
  | cons p rest ih =>
    intro a b
    simp only [List.foldl_cons, List.map_cons, List.flatten_cons]
    have hinner : p.2.foldl
        (fun flat vec => vec.foldl (fun fl v => fl ++ v.toList) flat) b =
        b ++ (p.2.map (fun vec => (vec.map Vec3.toList).flatten)).flatten := by
      rw [List.foldl_ext _ (fun flat vec => flat ++ (vec.map Vec3.toList).flatten)]
      · exact foldl_append_flatten _ p.2 b
      · intro acc vec _
        exact foldl_append_flatten Vec3.toList vec acc
    rw [hinner, ih]
    simp [List.append_assoc]

/-- Joining names with newline separators and appending a final newline
yields the concatenation of the newline-terminated names, for a nonempty
name list. -/
theorem joinNames_append_newline (l : List String) (h : l ≠ []) :
    joinNames l ++ "\x0a" =
      (l.map (fun nm => nm ++ "\x0a")).foldr (fun a b => a ++ b) "" := by
  induction l with
  | nil => exact absurd rfl h
  | cons n rest ih =>
    cases rest with
    | nil => simp [joinNames, String.append_empty]
    | cons m t =>
      have hne : m :: t ≠ [] := by simp
      have hrec := ih hne
      simp only [joinNames, List.map_cons, List.foldr_cons] at hrec ⊢
      simp only [String.append_assoc] at hrec ⊢
      rw [← hrec]

/-- In a flattening of lists that all have length `n`, the `k`-th block of
`n` consecutive values is exactly the `k`-th list. -/
theorem flatten_uniform_slice {α : Type} (ls : List (List α)) (n : Nat)
    (h : ∀ l ∈ ls, l.length = n) (k : Nat) (hk : k < ls.length) :
    (ls.flatten.drop (k * n)).take n = ls.get ⟨k, hk⟩ := by
  induction ls generalizing k with
  | nil => simp at hk
  | cons l rest ih =>
    have hl : l.length = n := h l (by simp)
    cases k with
    | zero =>
      simp only [Nat.zero_mul, List.drop_zero, List.flatten_cons, List.get]
      rw [← hl, List.take_left]
    | succ k' =>
      have harith : (k' + 1) * n = l.length + k' * n := by rw [hl]; ring
      simp only [List.flatten_cons, List.get]
      rw [harith, List.drop_append]
      exact ih (fun l' hl' => h l' (by simp [hl'])) k' (by simpa using hk)

/-- Closed form of the running-count scan: the emitted indices starting
from count `c`. -/
def siSpecAux {α : Type} (c : Nat) : List (List α) → List Nat
  | [] => []
  | v :: rest => c :: siSpecAux (c + v.length) rest

/-- The fold underlying `start_indices_of_field_line_elements` accumulates
the closed-form index list. -/
theorem start_indices_foldl_eq {α : Type} (vs : List (List α)) (a : List Nat)
    (c : Nat) :
    (vs.foldl (fun (acc : List Nat × Nat) v => (acc.1 ++ [acc.2], acc.2 + v.length))
      (a, c)).1 = a ++ siSpecAux c vs := by
  induction vs generalizing a c with
  | nil => simp [siSpecAux]
  | cons v rest ih =>
    simp only [List.foldl_cons, siSpecAux]
    rw [ih]
    simp

/-- Length of the closed-form index list. -/
theorem siSpecAux_length {α : Type} (c : Nat) (vs : List (List α)) :
    (siSpecAux c vs).length = vs.length := by
  induction vs generalizing c with
  | nil => simp [siSpecAux]
  | cons v rest ih => simp [siSpecAux, ih]

/-- Entries of the closed-form index list are the partial sums of the
preceding lengths, offset by the initial count. -/
theorem siSpecAux_get {α : Type} (vs : List (List α)) (c : Nat) (i : Nat)
    (h : i < (siSpecAux c vs).length) :
    (siSpecAux c vs).get ⟨i, h⟩ = c + ((vs.take i).map List.length).sum := by
  induction vs generalizing c i with
  | nil => simp [siSpecAux] at h
  | cons v rest ih =>
    cases i with
    | zero => simp [siSpecAux]
    | succ i' =>
      simp only [siSpecAux, List.get, List.take_succ_cons, List.map_cons, List.sum_cons]
      rw [ih]
      omega

/-- `start_indices_of_field_line_elements` has one entry per trajectory,
the `i`-th entry being the total length of trajectories `0 .. i-1`. -/
theorem start_indices_of_field_line_elements_spec {α : Type}
    (vs : List (List α)) :
    (start_indices_of_field_line_elements vs).length = vs.length ∧
    ∀ i (h : i < (start_indices_of_field_line_elements vs).length),
      (start_indices_of_field_line_elements vs).get ⟨i, h⟩ =
        ((vs.take i).map List.length).sum := by
  have he : start_indices_of_field_line_elements vs = siSpecAux 0 vs := by
    simpa [start_indices_of_field_line_elements] using
      start_indices_foldl_eq vs [] 0
  constructor
  · rw [he]; exact siSpecAux_length 0 vs
  · intro i h
    rw [List.get_of_eq he]
    simp only [Fin.cast_mk]
    rw [siSpecAux_get]
    omega

/-- C6: the custom-binary output begins with seven little-endian u64 values
whose first entry is the float byte size, followed by the six bounds in the
order xlo, xhi, ylo, yhi, zlo, zhi, followed by every quantity name, each
terminated by a newline, in the order fixed scalar, fixed vector, varying
scalar, varying vector; and within each of the four body sections the
quantities' values are flattened in exactly the order in which their names
appear, the `k`-th fixed-scalar block of `n_lines` values being the values
of the `k`-th fixed-scalar name. -/
theorem write_custom_binary_layout_spec (encFloat : ℚ → List Nat)
    (floatSize : Nat) (lower_bounds upper_bounds : Vec3)
    (props : FieldLineSetProperties3)
    (hnames : props.fixed_scalar_values.map Prod.fst ++
        props.fixed_vector_values.map Prod.fst ++
        props.varying_scalar_values.map Prod.fst ++
        props.varying_vector_values.map Prod.fst ≠ [])
    (hlen : ∀ p ∈ props.fixed_scalar_values,
        p.2.length = props.number_of_field_lines) :
    ((write_field_line_data_as_custom_binary encFloat floatSize
          lower_bounds upper_bounds props).take 3 =
        [OutChunk.bytes (u64le floatSize ++
            u64le props.number_of_field_lines ++
            u64le (field_line_elements_info props).1 ++
            u64le props.fixed_scalar_values.length ++
            u64le props.fixed_vector_values.length ++
            u64le props.varying_scalar_values.length ++
            u64le props.varying_vector_values.length),
        OutChunk.bytes (encFloat lower_bounds.x ++ encFloat upper_bounds.x ++
            encFloat lower_bounds.y ++ encFloat upper_bounds.y ++
            encFloat lower_bounds.z ++ encFloat upper_bounds.z),
        OutChunk.text
          (((props.fixed_scalar_values.map Prod.fst ++
             props.fixed_vector_values.map Prod.fst ++
             props.varying_scalar_values.map Prod.fst ++
             props.varying_vector_values.map Prod.fst).map
              (fun nm => nm ++ "\x0a")).foldr (fun a b => a ++ b) "")]) ∧
    (set_fixed_scalar_variables props.fixed_scalar_values).2 =
      (props.fixed_scalar_values.map Prod.snd).flatten ∧
    (set_fixed_vector_variables props.fixed_vector_values).2 =
      (props.fixed_vector_values.map
        (fun p => (p.2.map Vec3.toList).flatten)).flatten ∧
    (set_varying_scalar_variables props.varying_scalar_values).2 =
      (props.varying_scalar_values.map (fun p => p.2.flatten)).flatten ∧
    (set_varying_vector_variables props.varying_vector_values).2 =
      (props.varying_vector_values.map (fun p =>
        (p.2.map (fun vec => (vec.map Vec3.toList).flatten)).flatten)).flatten ∧
    (∀ k (hk : k < props.fixed_scalar_values.length),
      (((set_fixed_scalar_variables props.fixed_scalar_values).2.drop
          (k * props.number_of_field_lines)).take props.number_of_field_lines) =
        (props.fixed_scalar_values.get ⟨k, hk⟩).2) := by
  have hfs := set_fixed_scalar_variables_eq props.fixed_scalar_values
  have hfv := set_fixed_vector_variables_eq props.fixed_vector_values
  have hvs := set_varying_scalar_variables_eq props.varying_scalar_values
  have hvv := set_varying_vector_variables_eq props.varying_vector_values
  refine ⟨?_, ?_, ?_, ?_, ?_, ?_⟩
  · simp only [write_field_line_data_as_custom_binary, List.cons_append,
      List.nil_append, List.take_succ_cons, List.take_zero]
    rw [hfs, hfv, hvs, hvv]
    rw [joinNames_append_newline _ hnames]
  · rw [hfs]
  · rw [hfv]
  · rw [hvs]
  · rw [hvv]
  · intro k hk
    rw [hfs]
    have hlen' : ∀ l ∈ props.fixed_scalar_values.map Prod.snd,
        l.length = props.number_of_field_lines := by
      intro l hl
      obtain ⟨p, hp, rfl⟩ := List.mem_map.mp hl
      exact hlen p hp
    have hk' : k < (props.fixed_scalar_values.map Prod.snd).length := by
      simpa using hk
    rw [flatten_uniform_slice _ _ hlen' k hk']
    simp [List.getElem_map]

/-- Witness for C6: the fixed-scalar slice correspondence on a one-line,
one-quantity property set. -/
theorem write_custom_binary_layout_spec_witness :
    ((set_fixed_scalar_variables [("a", [(5 : ℚ)])]).2.drop (0 * 1)).take 1 =
      (([(("a" : String), [(5 : ℚ)])].get ⟨0, by decide⟩).2) :=
  (write_custom_binary_layout_spec (fun _ => []) 8 Vec3.zero Vec3.zero
    ⟨1, [("a", [5])], [], [], []⟩ (by simp) (by simp)).2.2.2.2.2 0 (by decide)

/-- C7 (amended): when the varying-scalar map is nonempty, its first
entry's outer array has one series per field line, and the total element
count is positive, the fourth chunk written is the offsets section: one
little-endian u64 per field line, the `i`-th being the summed path length
of trajectories `0 .. i-1`.  (When the element count is zero the offsets
section is omitted entirely.) -/
theorem write_custom_binary_offsets_spec (encFloat : ℚ → List Nat)
    (floatSize : Nat) (lower_bounds upper_bounds : Vec3)
    (props : FieldLineSetProperties3) (nm : String) (trs : List (List ℚ))
    (tail : List (String × List (List ℚ)))
    (hvs : props.varying_scalar_values = (nm, trs) :: tail)
    (hn : trs.length = props.number_of_field_lines)
    (hpos : 0 < (trs.map List.length).sum) :
    ((write_field_line_data_as_custom_binary encFloat floatSize
          lower_bounds upper_bounds props).get? 3 =
        some (OutChunk.bytes
          ((start_indices_of_field_line_elements trs).map u64le).flatten)) ∧
    (start_indices_of_field_line_elements trs).length =
      props.number_of_field_lines ∧
    (∀ i (h : i < (start_indices_of_field_line_elements trs).length),
      (start_indices_of_field_line_elements trs).get ⟨i, h⟩ =
        ((trs.take i).map List.length).sum) := by
  have hinfo : field_line_elements_info props =
      ((trs.map List.length).sum, start_indices_of_field_line_elements trs) := by
    simp [field_line_elements_info, hvs]
  refine ⟨?_, ?_, ?_⟩
  · simp only [write_field_line_data_as_custom_binary, hinfo, gt_iff_lt,
      List.cons_append, List.nil_append]
    rw [if_pos hpos]
    rfl
  · rw [← hn]
    exact (start_indices_of_field_line_elements_spec trs).1
  · exact (start_indices_of_field_line_elements_spec trs).2

/-- Witness for C7 (amended) on two trajectories of lengths 1 and 2. -/
theorem write_custom_binary_offsets_spec_witness :
    (start_indices_of_field_line_elements [[(1 : ℚ)], [2, 3]]).get ⟨1, by decide⟩ =
      (([[(1 : ℚ)], [2, 3]].take 1).map List.length).sum :=
  (write_custom_binary_offsets_spec (fun _ => []) 8 Vec3.zero Vec3.zero
    ⟨2, [], [], [("x", [[1], [2, 3]])], []⟩ "x" [[1], [2, 3]] []
    rfl rfl (by decide)).2.2 1 (by decide)

/-- Counterexample to C7 as stated: a property set with one field line
whose single varying-scalar series is empty has a positive line count but
zero field-line elements, so the offsets section is omitted entirely — the
output holds no chunk with the one offset value (a little-endian u64 zero)
that the claim requires. -/
theorem write_custom_binary_offsets_counterexample :
    write_field_line_data_as_custom_binary (fun _ => List.replicate 8 0) 8
        ⟨0, 0, 0⟩ ⟨0, 0, 0⟩ ⟨1, [], [], [("x", [[]])], []⟩ =
      [OutChunk.bytes (u64le 8 ++ u64le 1 ++ u64le 0 ++ u64le 0 ++ u64le 0 ++
        u64le 1 ++ u64le 0),
       OutChunk.bytes (List.replicate 48 0),
       OutChunk.text "x\x0a",
       OutChunk.bytes []] ∧
    OutChunk.bytes (([0].map u64le).flatten) ∉
      [OutChunk.bytes (u64le 8 ++ u64le 1 ++ u64le 0 ++ u64le 0 ++ u64le 0 ++
        u64le 1 ++ u64le 0),
       OutChunk.bytes (List.replicate 48 0),
       OutChunk.text "x\x0a",
       OutChunk.bytes []] := by
  constructor
  · simp only [write_field_line_data_as_custom_binary]
    decide
  · decide

/-- `filter_map` over a tracer that never returns `None` keeps every seed. -/
theorem filterMap_length_of_all_isSome {α β : Type} (f : α → Option β)
    (l : List α) (h : ∀ a ∈ l, (f a).isSome) :
    (l.filterMap f).length = l.length := by
  induction l with
  | nil => simp
  | cons a t ih =>
    have ha : (f a).isSome := h a (by simp)
    obtain ⟨b, hb⟩ := Option.isSome_iff_exists.mp ha
    have ht : ∀ x ∈ t, (f x).isSome := fun x hx => h x (by simp [hx])
    simp [List.filterMap_cons, hb, ih ht]

/-- A successful association-list lookup returns the value of some binding
of the list. -/
theorem alistLookup_mem {α : Type} (m : List (String × α)) (key : String)
    (v : α) (h : alistLookup m key = some v) : ∃ p ∈ m, p.2 = v := by
  unfold alistLookup at h
  obtain ⟨p, hfind, hv⟩ := Option.map_eq_some'.mp h
  exact ⟨p, List.mem_of_find?_eq_some hfind, hv⟩

/-- C8: tracing `N` seeds with a tracer that returns `Some` for each seed
yields properties with `number_of_field_lines = N`, every outer array of
the four maps of length `N`, and, within the varying maps, inner series
whose lengths at trajectory `i` all equal trajectory `i`'s path length (so
any two varying series have identical inner lengths at each index). -/
theorem field_line_set_trace_swarm_invariants (seeds : List Point3)
    (tracer : Point3 → Option FieldLineData3)
    (hsome : ∀ p ∈ seeds, (tracer p).isSome)
    (hwf : ∀ p d, tracer p = some d → d.wf) :
    (FieldLineSet3.trace seeds tracer).number_of_field_lines = seeds.length ∧
    (∀ e ∈ (FieldLineSet3.trace seeds tracer).fixed_scalar_values,
      e.2.length = seeds.length) ∧
    (∀ e ∈ (FieldLineSet3.trace seeds tracer).fixed_vector_values,
      e.2.length = seeds.length) ∧
    (∀ e ∈ (FieldLineSet3.trace seeds tracer).varying_scalar_values,
      e.2.length = seeds.length) ∧
    (∀ e ∈ (FieldLineSet3.trace seeds tracer).varying_vector_values,
      e.2.length = seeds.length) ∧
    (∀ e ∈ (FieldLineSet3.trace seeds tracer).varying_scalar_values,
      e.2.map List.length =
        (seeds.filterMap tracer).map (fun d => d.path.length)) ∧
    (∀ e ∈ (FieldLineSet3.trace seeds tracer).varying_vector_values,
      e.2.map List.length =
        (seeds.filterMap tracer).map (fun d => d.path.length)) ∧
    (∀ s ∈ (FieldLineSet3.trace seeds tracer).varying_scalar_values,
      ∀ t ∈ (FieldLineSet3.trace seeds tracer).varying_scalar_values,
        s.2.map List.length = t.2.map List.length) := by
  have hlen' : (seeds.filterMap tracer).length = seeds.length :=
    filterMap_length_of_all_isSome tracer seeds hsome
  have hdwf : ∀ d ∈ seeds.filterMap tracer, d.wf := by
    intro d hd
    obtain ⟨p, _, he⟩ := List.mem_filterMap.mp hd
    exact hwf p d he
  have hvslen : ∀ e ∈ (FieldLineSet3.trace seeds tracer).varying_scalar_values,
      e.2.map List.length =
        (seeds.filterMap tracer).map (fun d => d.path.length) := by
    intro e he
    simp only [FieldLineSet3.trace, reduceFieldLineData, List.mem_cons] at he
    rcases he with rfl | rfl | rfl | he
    · simp [List.map_map, Function.comp]
    · simp [List.map_map, Function.comp]
    · simp [List.map_map, Function.comp]
    · obtain ⟨key, _, rfl⟩ := List.mem_map.mp he
      simp only [List.map_map]
      refine List.map_congr_left ?_
      intro d hd
      simp only [Function.comp]
      cases hl : alistLookup d.extra_varying_scalar key with
      | none => simp [hl]
      | some v =>
        obtain ⟨q, hq, rfl⟩ := alistLookup_mem _ _ _ hl
        simp only [hl, Option.getD_some]
        exact (hdwf d hd).1 q hq
  have hvvlen : ∀ e ∈ (FieldLineSet3.trace seeds tracer).varying_vector_values,
      e.2.map List.length =
        (seeds.filterMap tracer).map (fun d => d.path.length) := by
    intro e he
    simp only [FieldLineSet3.trace, reduceFieldLineData] at he
    obtain ⟨key, _, rfl⟩ := List.mem_map.mp he
    simp only [List.map_map]
    refine List.map_congr_left ?_
    intro d hd
    simp only [Function.comp]
    cases hl : alistLookup d.extra_varying_vector key with
    | none => simp [hl]
    | some v =>
      obtain ⟨q, hq, rfl⟩ := alistLookup_mem _ _ _ hl
      simp only [hl, Option.getD_some]
      exact (hdwf d hd).2 q hq
  refine ⟨?_, ?_, ?_, ?_, ?_, hvslen, hvvlen, ?_⟩
  · simp [FieldLineSet3.trace, reduceFieldLineData, hlen']
  · intro e he
    simp only [FieldLineSet3.trace, reduceFieldLineData, List.mem_cons] at he
    rcases he with rfl | rfl | rfl | he
    · simp [hlen']
    · simp [hlen']
    · simp [hlen']
    · obtain ⟨key, _, rfl⟩ := List.mem_map.mp he
      simp [hlen']
  · intro e he
    simp only [FieldLineSet3.trace, reduceFieldLineData] at he
    obtain ⟨key, _, rfl⟩ := List.mem_map.mp he
    simp [hlen']
  · intro e he
    simp only [FieldLineSet3.trace, reduceFieldLineData, List.mem_cons] at he
    rcases he with rfl | rfl | rfl | he
    · simp [hlen']
    · simp [hlen']
    · simp [hlen']
    · obtain ⟨key, _, rfl⟩ := List.mem_map.mp he
      simp [hlen']
  · intro e he
    simp only [FieldLineSet3.trace, reduceFieldLineData] at he
    obtain ⟨key, _, rfl⟩ := List.mem_map.mp he
    simp [hlen']
  · intro s hs t ht
    rw [hvslen s hs, hvslen t ht]

/-- Witness for C8 with a single seed and an always-successful tracer. -/
theorem field_line_set_trace_swarm_invariants_witness :
    (FieldLineSet3.trace [Point3.origin]
      (fun p => some ⟨[p], [], [], [], []⟩)).number_of_field_lines = 1 :=
  (field_line_set_trace_swarm_invariants [Point3.origin]
    (fun p => some ⟨[p], [], [], [], []⟩)
    (fun _ _ => rfl)
    (fun p d h => by
      cases h
      exact ⟨fun q hq => absurd hq (List.not_mem_nil q),
             fun q hq => absurd hq (List.not_mem_nil q)⟩)).1

/-- Lookup after insert finds the inserted value. -/
theorem alistInsert_lookup_self {α : Type} (m : List (String × α)) (key : String)
    (v : α) : alistLookup (alistInsert m key v) key = some v := by
  induction m with
  | nil => simp [alistInsert, alistLookup]
  | cons p rest ih =>
    by_cases h : p.1 = key
    · simp [alistInsert, alistLookup, h]
    · simp only [alistInsert, if_neg h]
      simpa [alistLookup, List.find?_cons, h] using ih

/-- Lookup of a different key is unchanged by insert. -/
theorem alistInsert_lookup_ne {α : Type} (m : List (String × α)) (key : String)
    (v : α) (k : String) (h : k ≠ key) :
    alistLookup (alistInsert m key v) k = alistLookup m k := by
  induction m with
  | nil => simp [alistInsert, alistLookup, Ne.symm h]
  | cons p rest ih =>
    by_cases hp : p.1 = key
    · simp [alistInsert, alistLookup, hp, Ne.symm h, List.find?_cons]
    · simp only [alistInsert, if_neg hp]
      by_cases hpk : p.1 = k
      · simp [alistLookup, List.find?_cons, hpk]
      · simpa [alistLookup, List.find?_cons, hpk] using ih

/-- A key absent from the key list is bound zero times. -/
theorem alistCountKey_eq_zero {α : Type} (m : List (String × α)) (key : String)
    (h : key ∉ m.map Prod.fst) : alistCountKey m key = 0 := by
  induction m with
  | nil => simp [alistCountKey]
  | cons p rest ih =>
    have hp : ¬ p.1 = key := fun he => h (by simp [he])
    have hrest : key ∉ rest.map Prod.fst := fun he => h (by simp [he])
    simpa [alistCountKey, List.filter_cons, hp] using ih hrest

/-- After inserting into a map whose keys are distinct, the key is bound
exactly once. -/
theorem alistInsert_countKey {α : Type} (m : List (String × α)) (key : String)
    (v : α) (hnodup : (m.map Prod.fst).Nodup) :
    alistCountKey (alistInsert m key v) key = 1 := by
  induction m with
  | nil => simp [alistInsert, alistCountKey, List.filter_cons]
  | cons p rest ih =>
    have hnd : (rest.map Prod.fst).Nodup := (List.nodup_cons.mp hnodup).2
    by_cases h : p.1 = key
    · have hkey : key ∉ rest.map Prod.fst := by
        rw [← h]
        exact (List.nodup_cons.mp hnodup).1
      simp only [alistInsert, if_pos h, alistCountKey, List.filter_cons,
        decide_True, List.length_cons]
      have h0 : alistCountKey rest key = 0 := alistCountKey_eq_zero rest key hkey
      simp only [alistCountKey] at h0
      simp [h0]
    · simpa [alistInsert, alistCountKey, h, List.filter_cons] using ih hnd

/-- `mapM` over `Option` preserves length when it succeeds. -/
theorem mapM_option_length {α β : Type} (f : α → Option β) (l : List α)
    (r : List β) (h : l.mapM f = some r) : r.length = l.length := by
  induction l generalizing r with
  | nil =>
    simp only [List.mapM_nil, pure, Option.some.injEq] at h
    rw [← h]
    rfl
  | cons a t ih =>
    rw [List.mapM_cons] at h
    obtain ⟨b, hb, bs, hbs, rfl⟩ := by
      simpa [bind, Option.bind_eq_some] using h
    simp [ih bs hbs]

/-- When `mapM` over `Option` succeeds, the `i`-th result is the image of
the `i`-th input. -/
theorem mapM_option_get {α β : Type} (f : α → Option β) (l : List α)
    (r : List β) (h : l.mapM f = some r) (i : Nat) (h1 : i < l.length)
    (h2 : i < r.length) : f (l.get ⟨i, h1⟩) = some (r.get ⟨i, h2⟩) := by
  induction l generalizing r i with
  | nil => simp at h1
  | cons a t ih =>
    rw [List.mapM_cons] at h
    obtain ⟨b, hb, bs, hbs, rfl⟩ := by
      simpa [bind, Option.bind_eq_some] using h
    cases i with
    | zero => simpa using hb
    | succ i' =>
      simp only [List.get]
      exact ih bs hbs i' (by simpa using h1) (by simpa using h2)

/-- Length of a three-way zip. -/
theorem zipWith3_length {α β γ δ : Type} (f : α → β → γ → δ) (as : List α)
    (bs : List β) (cs : List γ) :
    (List.zipWith3 f as bs cs).length = min as.length (min bs.length cs.length) := by
  induction as generalizing bs cs with
  | nil => simp [List.zipWith3]
  | cons a as' ih =>
    rcases bs with _ | ⟨b, bs'⟩
    · simp [List.zipWith3]
    rcases cs with _ | ⟨c, cs'⟩
    · simp [List.zipWith3]
    rw [show List.zipWith3 f (a :: as') (b :: bs') (c :: cs') =
      f a b c :: List.zipWith3 f as' bs' cs' from rfl]
    simp only [List.length_cons]
    rw [ih bs' cs']
    omega

/-- C10: when the `"x0"`, `"y0"`, `"z0"` entries hold `N` coordinates each
and interpolation succeeds at every initial position,
`extract_fixed_scalars` replaces only the `fixed_scalar_values` map,
inserting exactly one binding under the key `fieldName ++ "0"` (replacing a
previous binding for that key, if any) whose value list holds exactly `N`
values, the `i`-th being the interpolated field value at line `i`'s initial
position; every other key's binding and the other three property maps are
unchanged. -/
theorem extract_fixed_scalars_spec (props : FieldLineSetProperties3)
    (fieldName : String) (interp : Point3 → Option ℚ) (N : Nat)
    (xs ys zs vals : List ℚ)
    (hx : alistLookup props.fixed_scalar_values "x0" = some xs)
    (hy : alistLookup props.fixed_scalar_values "y0" = some ys)
    (hz : alistLookup props.fixed_scalar_values "z0" = some zs)
    (hxn : xs.length = N) (hyn : ys.length = N) (hzn : zs.length = N)
    (hnodup : (props.fixed_scalar_values.map Prod.fst).Nodup)
    (hm : (List.zipWith3 Point3.mk xs ys zs).mapM interp = some vals) :
    extract_fixed_scalars props fieldName interp =
      some { props with
              fixed_scalar_values :=
                alistInsert props.fixed_scalar_values (fieldName ++ "0") vals } ∧
    vals.length = N ∧
    alistLookup (alistInsert props.fixed_scalar_values (fieldName ++ "0") vals)
      (fieldName ++ "0") = some vals ∧
    (∀ k, k ≠ fieldName ++ "0" →
      alistLookup (alistInsert props.fixed_scalar_values (fieldName ++ "0") vals) k =
        alistLookup props.fixed_scalar_values k) ∧
    alistCountKey (alistInsert props.fixed_scalar_values (fieldName ++ "0") vals)
      (fieldName ++ "0") = 1 ∧
    (∀ i (h1 : i < (List.zipWith3 Point3.mk xs ys zs).length)
        (h2 : i < vals.length),
      interp ((List.zipWith3 Point3.mk xs ys zs).get ⟨i, h1⟩) =
        some (vals.get ⟨i, h2⟩)) := by
  refine ⟨?_, ?_, alistInsert_lookup_self _ _ _, ?_, ?_, ?_⟩
  · simp only [extract_fixed_scalars, hx, hy, hz, hm, Option.map_some']
  · rw [mapM_option_length interp _ vals hm, zipWith3_length, hxn, hyn, hzn]
    omega
  · intro k hk
    exact alistInsert_lookup_ne _ _ _ _ hk
  · exact alistInsert_countKey _ _ _ hnodup
  · intro i h1 h2
    exact mapM_option_get interp _ vals hm i h1 h2

/-- Witness for C10 on a three-key map with one field line. -/
theorem extract_fixed_scalars_spec_witness :
    extract_fixed_scalars
        ⟨1, [("x0", [1]), ("y0", [2]), ("z0", [3])], [], [], []⟩ "tg"
        (fun _ => some 7) =
      some ⟨1, alistInsert [("x0", [1]), ("y0", [2]), ("z0", [3])] ("tg" ++ "0") [7],
            [], [], []⟩ :=
  (extract_fixed_scalars_spec
    ⟨1, [("x0", [1]), ("y0", [2]), ("z0", [3])], [], [], []⟩ "tg"
    (fun _ => some 7) 1 [1] [2] [3] [7]
    rfl rfl rfl rfl rfl rfl
    (by simp [List.nodup_cons])
    rfl).1
